import Mathlib

/-!
Verification of the core orchestration logic of the `infinitum` outline /
visualization service (`src/infinitum/main.py`): identifier assignment
(`_slug`, `_ensure_ids`), caption sanitization, the cached and rate-limited
`/api/visualize` pipeline, the `/api/visualize/eligibility` safe-default
handler, and the `/api/deepdive` child post-processing.

External collaborators (the OpenAI generation service, Python's string
`hash`, `uuid4` randomness) are modelled as explicit parameters; everything
else is translated directly from the Python source.
-/

namespace Infinitum

/-! ### Python string helpers

`isPySpace` is the Python `\s` / `str.strip()` / `str.split()` whitespace
class restricted to ASCII. -/

def isPySpace (c : Char) : Bool :=
  c = ' ' || c = '\t' || c = '\n' || c = '\r' || c = '\x0B' || c = '\x0C'

/-- Drop every leading and trailing character satisfying `p`
(Python `str.strip` / `str.strip(chars)`). -/
def stripBy (p : Char → Bool) (l : List Char) : List Char :=
  ((l.dropWhile p).reverse.dropWhile p).reverse

/-- Replace every maximal run of characters satisfying `p` by the single
character `r` (Python `re.sub(p+, r, s)`).  The Boolean argument records
whether the previous character was part of a run. -/
def collapseRunsAux (p : Char → Bool) (r : Char) : Bool → List Char → List Char
  | _, [] => []
  | inRun, c :: cs =>
    if p c then
      if inRun then collapseRunsAux p r true cs
      else r :: collapseRunsAux p r true cs
    else c :: collapseRunsAux p r false cs

def collapseRuns (p : Char → Bool) (r : Char) (l : List Char) : List Char :=
  collapseRunsAux p r false l

/-! ### `_slug` (main.py lines 27-33)

```python
def _slug(s: str) -> str:
    s = (s or "").lower().strip()
    s = re.sub(r"[^a-z0-9\s/\-]", "", s)
    s = re.sub(r"\s+", "-", s)
    s = re.sub(r"-+", "-", s)
    return s
```
-/

def slugKeep (c : Char) : Bool :=
  ('a' ≤ c && c ≤ 'z') || ('0' ≤ c && c ≤ '9') || isPySpace c || c = '/' || c = '-'

def pySlug (s : String) : String :=
  let l := stripBy isPySpace (s.data.map Char.toLower)
  let l := l.filter slugKeep
  let l := collapseRuns isPySpace '-' l
  let l := collapseRuns (fun c => c = '-') '-' l
  String.mk l

/-! ### `_ensure_ids` (main.py lines 35-49)

```python
def _ensure_ids(nodes, seen=None, prefix=""):
    if seen is None:
        seen = set()
    out = []
    for n in (nodes or []):
        nid = str(n.get("id") or _slug(f"{prefix}/{n.get('title','')}").strip("/"))
        if nid in seen:
            nid = f"{nid}-{uuid.uuid4().hex[:4]}"
        n["id"] = nid
        seen.add(nid)
        if "children" in n and isinstance(n["children"], list):
            n["children"] = _ensure_ids(n["children"], seen, n["id"])
        out.append(n)
    return out
```

A raw node is a triple of an id (the empty string standing for an absent or
falsy `id` key, matching `n.get("id") or ...`), a title, and a list of
children (an absent `children` key behaves like `[]`).  The `uuid4` suffix
source is an explicit stream `rand : Nat → String` consumed left to right;
the returned counter records how many suffixes were drawn. -/

inductive Node : Type where
  | mk (id : String) (title : String) (children : List Node)

def Node.id : Node → String
  | .mk i _ _ => i

def Node.title : Node → String
  | .mk _ t _ => t

def Node.children : Node → List Node
  | .mk _ _ c => c

/-- Membership in the Python `seen` set. -/
def hasStr : List String → String → Bool
  | [], _ => false
  | x :: xs, s => if x = s then true else hasStr xs s

def ensureIds (rand : Nat → String) :
    List Node → List String → String → Nat → (List Node × List String × Nat)
  | [], seen, _, k => ([], seen, k)
  | Node.mk i t ch :: rest, seen, pfx, k =>
    let cand := if i ≠ "" then i
      else String.mk (stripBy (fun c => c = '/') (pySlug (pfx ++ "/" ++ t)).data)
    let nid := if hasStr seen cand then cand ++ "-" ++ rand k else cand
    let k1 := if hasStr seen cand then k + 1 else k
    let res1 := ensureIds rand ch (nid :: seen) nid k1
    let res2 := ensureIds rand rest res1.2.1 pfx res1.2.2
    (Node.mk nid t res1.1 :: res2.1, res2.2.1, res2.2.2)

/-! ### Caption sanitization (main.py lines 748-761)

```python
if caption:
    sentences = caption.split('.')
    caption = sentences[0].strip()
    if not caption.endswith('.'):
        caption += '.'
    words = caption.split()
    if len(words) > 25:
        caption = ' '.join(words[:25]) + '...'

if not caption:
    caption = f"Visualization for {node.get('title', '')}"
```
-/

/-- Python `str.split()` with no argument: maximal runs of non-whitespace
characters, with no empty words.  The accumulator holds the current word
reversed. -/
def pyWordsAux : List Char → List Char → List (List Char)
  | [], acc => if acc = [] then [] else [acc.reverse]
  | c :: cs, acc =>
    if isPySpace c then
      if acc = [] then pyWordsAux cs [] else acc.reverse :: pyWordsAux cs []
    else pyWordsAux cs (c :: acc)

def pyWords (l : List Char) : List (List Char) :=
  pyWordsAux l []

/-- Python `' '.join(words)`. -/
def joinSp : List (List Char) → List Char
  | [] => []
  | [w] => w
  | w :: ws => w ++ ' ' :: joinSp ws

/-- The body of the `if caption:` block: first segment before a `.`,
stripped, period appended (`caption.endswith('.')` is checked first, as in
the source, though the segment can never contain a period), truncated to 25
words with `'...'` when too long. -/
def sanitizeCore (raw : List Char) : List Char :=
  let seg := stripBy isPySpace (raw.takeWhile (fun c => c ≠ '.'))
  let seg2 := if seg.getLast? = some '.' then seg else seg ++ ['.']
  let ws := pyWords seg2
  if 25 < ws.length then joinSp (ws.take 25) ++ ['.', '.', '.'] else seg2

def sanitizeChars (raw : List Char) (fallbackTitle : List Char) : List Char :=
  let c1 := if raw = [] then raw else sanitizeCore raw
  if c1 = [] then ("Visualization for ").data ++ fallbackTitle else c1

def sanitize (raw : String) (fallbackTitle : String) : String :=
  String.mk (sanitizeChars raw.data fallbackTitle.data)

/-! ### The `/api/visualize` pipeline (main.py lines 674-811)

The handler body is translated to a state-transition function.  Process
state is the two module-level dictionaries:

```python
visualization_cache = {}
user_daily_limits = {}
```

modelled as association lists with latest-binding-first semantics (lookup
returns the most recent binding, assignment prepends).  The external
Generation Service (two `client.*` calls: planning chat completion +
`json.loads`, and image generation) and Python's `hash` are modelled as
fields of an environment record:
* `contentHash c` stands for `str(hash(content))[:16]`,
* `promptHash p` for `hash(image_prompt)` in the fallback URL,
* `planning topic title desc content` for the planning chat call together
  with the `json.loads` parse — `none` when the call raises (transport
  error or malformed payload), `some (prompt, caption)` with `.get`
  defaults applied otherwise,
* `imageGen prompt` for `client.images.generate` — `none` when it raises.

The step function also returns the number of Generation Service calls made
while serving the request. -/

structure CacheEntry where
  imageUrl : String
  caption : String
deriving DecidableEq

structure VizState where
  cache : List (String × CacheEntry)
  limits : List (String × Nat)
deriving DecidableEq

structure VizRequest where
  nodeTitle : String
  nodeId : String
  nodeDesc : String
  content : String
  topic : String
  clientIp : String
  today : String
deriving DecidableEq

structure VizEnv where
  contentHash : String → String
  promptHash : String → Nat
  planning : String → String → String → String → Option (String × String)
  imageGen : String → Option String

inductive VizOutcome : Type where
  /-- A 200 response `{imageUrl, caption, success, cached?, fallback?}`. -/
  | ok (imageUrl : String) (caption : String) (cached : Bool) (fallbackUsed : Bool)
  /-- The 400 response for a missing node title. -/
  | inputError
  /-- The 429 response when the daily limit is reached. -/
  | rejected
  /-- The 500 response produced by the outer `except` handler. -/
  | serverError
deriving DecidableEq

/-- Association-list lookup (Python dict read). -/
def findA {α : Type} : List (String × α) → String → Option α
  | [], _ => none
  | (k, v) :: l, s => if k = s then some v else findA l s

/-- The value of `user_daily_limits[k]`, defaulting to the `0` that the
handler lazily inserts for absent keys. -/
def effCount (st : VizState) (k : String) : Nat :=
  (findA st.limits k).getD 0

/-- `cache_key = f"{topic}:{node.get('id', '')}:{content_hash}"`. -/
def cacheKeyOf (env : VizEnv) (rq : VizRequest) : String :=
  rq.topic ++ ":" ++ rq.nodeId ++ ":" ++ env.contentHash rq.content

/-- `user_key = f"{client_ip}:{today}"`. -/
def userKeyOf (rq : VizRequest) : String :=
  rq.clientIp ++ ":" ++ rq.today

/-- `f"https://picsum.photos/1024/1024?random={hash(image_prompt) % 1000}"`. -/
def picsumUrl (env : VizEnv) (p : String) : String :=
  "https://picsum.photos/1024/1024?random=" ++ Nat.repr (env.promptHash p % 1000)

/-- `if user_key not in user_daily_limits: user_daily_limits[user_key] = 0`. -/
def materialize (st : VizState) (uk : String) : VizState :=
  if (findA st.limits uk).isNone then { st with limits := (uk, 0) :: st.limits } else st

def visualizeStep (env : VizEnv) (st : VizState) (rq : VizRequest) :
    VizOutcome × VizState × Nat :=
  if rq.nodeTitle = "" then (.inputError, st, 0)
  else
    match findA st.cache (cacheKeyOf env rq) with
    | some e => (.ok e.imageUrl e.caption true false, st, 0)
    | none =>
      let st1 := materialize st (userKeyOf rq)
      if 20 ≤ effCount st1 (userKeyOf rq) then (.rejected, st1, 0)
      else
        match env.planning rq.topic rq.nodeTitle rq.nodeDesc rq.content with
        | none => (.serverError, st1, 1)
        | some (p, rawCap) =>
          let cap := sanitize rawCap rq.nodeTitle
          match env.imageGen p with
          | some url =>
            (.ok url cap false false,
             { cache := (cacheKeyOf env rq, ⟨url, cap⟩) :: st1.cache,
               limits := (userKeyOf rq, effCount st1 (userKeyOf rq) + 1) :: st1.limits },
             2)
          | none =>
            (.ok (picsumUrl env p) cap false true,
             { st1 with cache := (cacheKeyOf env rq, ⟨picsumUrl env p, cap⟩) :: st1.cache },
             2)

/-- Sequential processing of a series of requests against the same
process-global state. -/
def runTrace (env : VizEnv) (st : VizState) : List VizRequest → VizState
  | [] => st
  | rq :: rest => runTrace env (visualizeStep env st rq).2.1 rest

/-- Outcomes that complete a generation attempt (a 200 response that was
not served from the cache): genuine success or degraded fallback. -/
def isCompletedOk : VizOutcome → Bool
  | .ok _ _ false _ => true
  | _ => false

/-- A genuine (non-fallback, non-cached) success — the only branch that
runs `user_daily_limits[user_key] += 1`. -/
def isGenuineSuccess : VizOutcome → Bool
  | .ok _ _ false false => true
  | _ => false

/-! ### `/api/visualize/eligibility` (main.py lines 605-668)

The whole handler body sits in one `try`; the `except` returns the safe
default.  `svc` stands for the classification call together with the
`json.loads` parse of its content: `none` when anything raises, `some r`
for the parsed verdict payload. -/

structure EligOut where
  ok : Bool
  score : Nat
  rationale : String
deriving DecidableEq

def visualizeEligibility (svc : Option EligOut) (nodeTitle : String) : EligOut :=
  if nodeTitle = "" then ⟨false, 0, "No node title provided"⟩
  else
    match svc with
    | some r => r
    | none => ⟨false, 0, "Error"⟩

/-! ### `/api/deepdive` child post-processing (main.py lines 482-505)

```python
short_name = parsed.get("shortName", "").strip()
children = parsed.get("children", [])
if not short_name or not children:
    abort(400, "Invalid response: missing shortName or children")
children = _ensure_ids(children[:4], prefix="")
if children and children[0].get("title", "").lower() != "overview":
    children[0]["title"] = "Overview"
```
-/

/-- Python `str.lower()` (ASCII). -/
def pyLower (s : String) : String :=
  String.mk (s.data.map Char.toLower)

def deepdivePost (rand : Nat → String) (children : List Node) : List Node :=
  match (ensureIds rand (children.take 4) [] "" 0).1 with
  | [] => []
  | n :: rest =>
    if pyLower n.title ≠ "overview" then Node.mk n.id "Overview" n.children :: rest
    else n :: rest

def apiDeepdive (rand : Nat → String) (rawShortName : String) (children : List Node) :
    Option (String × List Node) :=
  let sn := String.mk (stripBy isPySpace rawShortName.data)
  if sn = "" ∨ children.isEmpty then none
  else some (sn, deepdivePost rand children)

/-! ### Concrete instances used by the closed evaluation theorems -/

/-- A service whose planning call succeeds with plan `("p", "c")` but whose
image-generation call always fails. -/
def envFB : VizEnv :=
  ⟨fun _ => "h", fun _ => 0, fun _ _ _ _ => some ("p", "c"), fun _ => none⟩

/-- A service where both calls succeed. -/
def envOK : VizEnv :=
  ⟨fun _ => "h", fun _ => 0, fun _ _ _ _ => some ("p", "c"), fun _ => some "u"⟩

/-- A service whose planning call fails (transport error or malformed
payload), which the handler's outer `except` turns into a 500. -/
def envPE : VizEnv :=
  ⟨fun _ => "h", fun _ => 0, fun _ _ _ _ => none, fun _ => some "u"⟩

def rq0 : VizRequest := ⟨"T", "n", "", "x", "t", "ip", "d"⟩

def st0 : VizState := ⟨[], []⟩

/-- A request with the `title` field missing (empty). -/
def rqE : VizRequest := ⟨"", "n", "", "x", "t", "ip", "d"⟩

/-! ### Evaluation checks of the embedding on concrete inputs -/

example : pySlug "Hello  World" = "hello-world" := by decide
example : pySlug "/" = "/" := by decide
example :
    (ensureIds (fun _ => "beef") [Node.mk "" "" []] [] "" 0).1.map Node.id = [""] := by
  simp only [ensureIds]
  decide

example :
    (ensureIds (fun _ => "beef")
        [Node.mk "a-beef" "t" [], Node.mk "a" "t" [], Node.mk "a" "t" []]
        [] "" 0).1.map Node.id = ["a-beef", "a", "a-beef"] := by
  simp only [ensureIds]
  decide

example : sanitize "Hello world. More text." "T" = "Hello world." := by decide
example : sanitize "" "Newton" = "Visualization for Newton" := by decide
example : sanitize "no period here" "T" = "no period here." := by decide
example : sanitize "   " "T" = "." := by decide

example : visualizeStep envFB st0 rq0 =
    (.ok "https://picsum.photos/1024/1024?random=0" "c." false true,
     ⟨[("t:n:h", ⟨"https://picsum.photos/1024/1024?random=0", "c."⟩)], [("ip:d", 0)]⟩,
     2) := by
  decide

example : visualizeStep envOK st0 rq0 =
    (.ok "u" "c." false false,
     ⟨[("t:n:h", ⟨"u", "c."⟩)], [("ip:d", 1), ("ip:d", 0)]⟩, 2) := by
  decide

example : visualizeStep envPE st0 rq0 = (.serverError, ⟨[], [("ip:d", 0)]⟩, 1) := by
  decide

example : visualizeStep envOK ⟨[], [("ip:d", 20)]⟩ rq0 =
    (.rejected, ⟨[], [("ip:d", 20)]⟩, 0) := by
  decide

lemma pyWordsAux_append (w : List Char) (l acc : List Char)
    (hw : ∀ c ∈ w, isPySpace c = false) :
    pyWordsAux (w ++ l) acc = pyWordsAux l (w.reverse ++ acc) := by
  induction w generalizing acc with
  | nil => simp
  | cons c w ih =>
    have hc : isPySpace c = false := hw c (by simp)
    have ih2 := ih (c :: acc) (fun x hx => hw x (by simp [hx]))
    simp only [List.cons_append, pyWordsAux, hc, Bool.false_eq_true, if_false,
      List.reverse_cons, List.append_assoc, List.singleton_append]
    simpa using ih2

lemma pyWordsAux_words (l : List Char) (acc : List Char)
    (hacc : ∀ c ∈ acc, isPySpace c = false) :
    ∀ w ∈ pyWordsAux l acc, w ≠ [] ∧ ∀ c ∈ w, isPySpace c = false := by
  induction l generalizing acc with
  | nil =>
    intro w hw
    by_cases h : acc = []
    · simp [pyWordsAux, h] at hw
    · simp only [pyWordsAux, h, if_false, List.mem_singleton] at hw
      subst hw
      refine ⟨by simpa using h, fun c hc => hacc c (by simpa using hc)⟩
  | cons c cs ih =>
    intro w hw
    by_cases hc : isPySpace c = true
    · by_cases h : acc = []
      · simp only [pyWordsAux, hc, h, if_true] at hw
        exact ih [] (by simp) w hw
      · simp only [pyWordsAux, hc, h, if_true, if_false, List.mem_cons] at hw
        rcases hw with hw | hw
        · subst hw
          refine ⟨by simpa using h, fun x hx => hacc x (by simpa using hx)⟩
        · exact ih [] (by simp) w hw
    · simp only [pyWordsAux, hc, if_false] at hw
      refine ih (c :: acc) ?_ w hw
      intro x hx
      rcases List.mem_cons.mp hx with rfl | hx
      · simpa using hc
      · exact hacc x hx

lemma pyWords_single (t : List Char) (ht : t ≠ [])
    (htw : ∀ c ∈ t, isPySpace c = false) :
    pyWords t = [t] := by
  have h1 := pyWordsAux_append t [] [] htw
  simp only [List.append_nil] at h1
  unfold pyWords
  rw [h1]
  simp [pyWordsAux, ht]

lemma pyWords_word_cons (w l : List Char) (hw : w ≠ [])
    (hnw : ∀ c ∈ w, isPySpace c = false) :
    pyWords (w ++ ' ' :: l) = w :: pyWords l := by
  unfold pyWords
  rw [pyWordsAux_append w (' ' :: l) [] hnw]
  simp [pyWordsAux, isPySpace, hw]

lemma pyWords_join_append_length (W : List (List Char)) (t : List Char)
    (hW : ∀ w ∈ W, w ≠ [] ∧ ∀ c ∈ w, isPySpace c = false)
    (ht : t ≠ []) (htw : ∀ c ∈ t, isPySpace c = false) :
    (pyWords (joinSp W ++ t)).length = if W = [] then 1 else W.length := by
  induction W with
  | nil => simp [joinSp, pyWords_single t ht htw]
  | cons w W ih =>
    have hw := hW w (by simp)
    cases W with
    | nil =>
      have hnw : ∀ c ∈ w ++ t, isPySpace c = false := by
        intro c hc
        rcases List.mem_append.mp hc with h | h
        · exact hw.2 c h
        · exact htw c h
      simp [joinSp, pyWords_single (w ++ t) (by simp [hw.1]) hnw]
    | cons w' W' =>
      have ihh := ih (fun x hx => hW x (by simp [List.mem_cons.mp hx]))
      have h1 : joinSp (w :: w' :: W') ++ t = w ++ ' ' :: (joinSp (w' :: W') ++ t) := by
        simp [joinSp]
      rw [h1, pyWords_word_cons w _ hw.1 hw.2, List.length_cons, ihh]
      simp

lemma getLast?_append_single (l : List Char) (a : Char) :
    (l ++ [a]).getLast? = some a := by
  simp

/-- The non-empty-caption branch always ends in a period (the ellipsis
marker ends in one too) and never exceeds 25 whitespace-separated words. -/
lemma sanitizeCore_spec (raw : List Char) :
    (sanitizeCore raw).getLast? = some '.' ∧
    (pyWords (sanitizeCore raw)).length ≤ 25 := by
  simp only [sanitizeCore]
  set seg := stripBy isPySpace (raw.takeWhile (fun c => c ≠ '.')) with hseg
  set seg2 := if seg.getLast? = some '.' then seg else seg ++ ['.'] with hseg2
  have h2 : seg2.getLast? = some '.' := by
    rw [hseg2]
    split
    · rename_i h; exact h
    · exact getLast?_append_single _ _
  by_cases h : 25 < (pyWords seg2).length
  · rw [if_pos h]
    constructor
    · rw [show ['.', '.', '.'] = ['.', '.'] ++ ['.'] from rfl, ← List.append_assoc]
      exact getLast?_append_single _ _
    · have hW : ∀ w ∈ (pyWords seg2).take 25, w ≠ [] ∧ ∀ c ∈ w, isPySpace c = false :=
        fun w hw => pyWordsAux_words seg2 [] (by simp) w (List.take_subset _ _ hw)

      have hlen25 : ((pyWords seg2).take 25).length = 25 := by
        rw [List.length_take]
        exact Nat.min_eq_left (Nat.le_of_lt h)
      have hres := pyWords_join_append_length ((pyWords seg2).take 25) ['.', '.', '.']
        hW (by decide) (by decide)
      rw [hres, if_neg (by intro h0; rw [h0] at hlen25; simp at hlen25), hlen25]
  · rw [if_neg h]
    exact ⟨h2, Nat.le_of_not_lt h⟩

lemma sanitizeCore_ne_nil (raw : List Char) : sanitizeCore raw ≠ [] := by
  intro h0
  have h2 := (sanitizeCore_spec raw).1
  rw [h0] at h2
  simp at h2

lemma sanitizeChars_nonempty (raw ftitle : List Char) (hraw : raw ≠ []) :
    sanitizeChars raw ftitle = sanitizeCore raw := by
  simp only [sanitizeChars]
  rw [if_neg hraw, if_neg (sanitizeCore_ne_nil raw)]

lemma sanitizeChars_empty (ftitle : List Char) :
    sanitizeChars [] ftitle = ("Visualization for ").data ++ ftitle := by
  simp [sanitizeChars]

/-! ### Helper lemmas about the pipeline state machine -/

lemma materialize_cache (st : VizState) (uk : String) :
    (materialize st uk).cache = st.cache := by
  unfold materialize
  split <;> rfl

lemma effCount_mk (C : List (String × CacheEntry)) (L : List (String × Nat)) (k : String) :
    effCount ⟨C, L⟩ k = (findA L k).getD 0 := rfl

lemma effCount_materialize (st : VizState) (uk k : String) :
    effCount (materialize st uk) k = effCount st k := by
  unfold materialize
  split
  · rename_i h
    have h' : findA st.limits uk = none := Option.isNone_iff_eq_none.mp h
    unfold effCount
    by_cases hk : uk = k
    · subst hk
      simp [findA, h']
    · simp [findA, hk]
  · rfl

lemma findA_materialize_limits (st : VizState) (uk k : String) :
    (findA (materialize st uk).limits k).getD 0 = effCount st k :=
  effCount_materialize st uk k

/-- Exhaustive description of `visualizeStep`: exactly one of the six
handler paths is taken. -/
lemma visualizeStep_cases (env : VizEnv) (st : VizState) (rq : VizRequest) :
    (rq.nodeTitle = "" ∧ visualizeStep env st rq = (.inputError, st, 0)) ∨
    (∃ e, rq.nodeTitle ≠ "" ∧ findA st.cache (cacheKeyOf env rq) = some e ∧
      visualizeStep env st rq = (.ok e.imageUrl e.caption true false, st, 0)) ∨
    (rq.nodeTitle ≠ "" ∧ findA st.cache (cacheKeyOf env rq) = none ∧
      20 ≤ effCount st (userKeyOf rq) ∧
      visualizeStep env st rq = (.rejected, materialize st (userKeyOf rq), 0)) ∨
    (rq.nodeTitle ≠ "" ∧ findA st.cache (cacheKeyOf env rq) = none ∧
      effCount st (userKeyOf rq) < 20 ∧
      env.planning rq.topic rq.nodeTitle rq.nodeDesc rq.content = none ∧
      visualizeStep env st rq = (.serverError, materialize st (userKeyOf rq), 1)) ∨
    (∃ p rawCap url, rq.nodeTitle ≠ "" ∧ findA st.cache (cacheKeyOf env rq) = none ∧
      effCount st (userKeyOf rq) < 20 ∧
      env.planning rq.topic rq.nodeTitle rq.nodeDesc rq.content = some (p, rawCap) ∧
      env.imageGen p = some url ∧
      visualizeStep env st rq =
        (.ok url (sanitize rawCap rq.nodeTitle) false false,
         { cache := (cacheKeyOf env rq, ⟨url, sanitize rawCap rq.nodeTitle⟩) ::
             (materialize st (userKeyOf rq)).cache,
           limits := (userKeyOf rq, effCount st (userKeyOf rq) + 1) ::
             (materialize st (userKeyOf rq)).limits }, 2)) ∨
    (∃ p rawCap, rq.nodeTitle ≠ "" ∧ findA st.cache (cacheKeyOf env rq) = none ∧
      effCount st (userKeyOf rq) < 20 ∧
      env.planning rq.topic rq.nodeTitle rq.nodeDesc rq.content = some (p, rawCap) ∧
      env.imageGen p = none ∧
      visualizeStep env st rq =
        (.ok (picsumUrl env p) (sanitize rawCap rq.nodeTitle) false true,
         { cache := (cacheKeyOf env rq, ⟨picsumUrl env p, sanitize rawCap rq.nodeTitle⟩) ::
             (materialize st (userKeyOf rq)).cache,
           limits := (materialize st (userKeyOf rq)).limits }, 2)) := by
  by_cases ht : rq.nodeTitle = ""
  · exact Or.inl ⟨ht, by simp [visualizeStep, ht]⟩
  · cases hc : findA st.cache (cacheKeyOf env rq) with
    | some e =>
      exact Or.inr (Or.inl ⟨e, ht, rfl, by simp [visualizeStep, ht, hc]⟩)
    | none =>
      by_cases hq : 20 ≤ effCount st (userKeyOf rq)
      · refine Or.inr (Or.inr (Or.inl ⟨ht, rfl, hq, ?_⟩))
        simp [visualizeStep, ht, hc, effCount_materialize, hq]
      · have hq' : effCount st (userKeyOf rq) < 20 := Nat.lt_of_not_le hq
        cases hp : env.planning rq.topic rq.nodeTitle rq.nodeDesc rq.content with
        | none =>
          refine Or.inr (Or.inr (Or.inr (Or.inl ⟨ht, rfl, hq', rfl, ?_⟩)))
          simp [visualizeStep, ht, hc, effCount_materialize, hq, hp]
        | some pr =>
          obtain ⟨p, rawCap⟩ := pr
          cases hi : env.imageGen p with
          | some url =>
            refine Or.inr (Or.inr (Or.inr (Or.inr (Or.inl
              ⟨p, rawCap, url, ht, rfl, hq', rfl, hi, ?_⟩))))
            simp [visualizeStep, ht, hc, effCount_materialize, hq, hp, hi]
          | none =>
            refine Or.inr (Or.inr (Or.inr (Or.inr (Or.inr
              ⟨p, rawCap, ht, rfl, hq', rfl, hi, ?_⟩))))
            simp [visualizeStep, ht, hc, effCount_materialize, hq, hp, hi]

/-- A cache binding survives one request: the handler writes to the cache
only under a key it has just found to be absent. -/
lemma step_cache_mono (env : VizEnv) (st : VizState) (rq : VizRequest)
    (k : String) (v : CacheEntry) (h : findA st.cache k = some v) :
    findA ((visualizeStep env st rq).2.1).cache k = some v := by
  rcases visualizeStep_cases env st rq with
    ⟨_, he⟩ | ⟨e, _, _, he⟩ | ⟨_, _, _, he⟩ | ⟨_, _, _, _, he⟩ |
    ⟨p, rawCap, url, _, hm, _, _, _, he⟩ | ⟨p, rawCap, _, hm, _, _, _, he⟩
  · rw [he]; exact h
  · rw [he]; exact h
  · rw [he]; simpa [materialize_cache] using h
  · rw [he]; simpa [materialize_cache] using h
  · rw [he]
    have hne : cacheKeyOf env rq ≠ k := fun hk => by
      rw [hk, h] at hm
      cases hm
    simp [findA, hne, materialize_cache, h]
  · rw [he]
    have hne : cacheKeyOf env rq ≠ k := fun hk => by
      rw [hk, h] at hm
      cases hm
    simp [findA, hne, materialize_cache, h]

lemma runTrace_cache_mono (env : VizEnv) (rqs : List VizRequest) :
    ∀ st k v, findA st.cache k = some v →
      findA (runTrace env st rqs).cache k = some v := by
  induction rqs with
  | nil => intro st k v h; exact h
  | cons rq rest ih =>
    intro st k v h
    exact ih _ k v (step_cache_mono env st rq k v h)

/-- `_ensure_ids` returns one output node per input node. -/
lemma ensureIds_length (rand : Nat → String) (l : List Node) :
    ∀ seen pfx k, ((ensureIds rand l seen pfx k).1).length = l.length := by
  induction l with
  | nil => intro seen pfx k; simp [ensureIds]
  | cons n rest ih =>
    intro seen pfx k
    cases n with
    | mk i t ch => simp [ensureIds, ih]

/-- `_ensure_ids` rewrites ids but leaves every title unchanged. -/
lemma ensureIds_titles (rand : Nat → String) (l : List Node) :
    ∀ seen pfx k,
      ((ensureIds rand l seen pfx k).1).map Node.title = l.map Node.title := by
  induction l with
  | nil => intro seen pfx k; simp [ensureIds]
  | cons n rest ih =>
    intro seen pfx k
    cases n with
    | mk i t ch => simp [ensureIds, ih, Node.title]

/-! ### Claim theorems -/

/-- Claim C1.  The code does not meet the stated guarantee: a node with an
empty title (and no explicit id) under an empty id prefix is assigned the
empty string as its id, and because the random 4-hex suffix is appended
only once — never re-checked against `seenIds` — a suffix that happens to
reproduce an existing id (here the uuid stream yields `"beef"`) makes
`_ensure_ids` return two nodes with the same id `"a-beef"`. -/
theorem ensureIds_empty_and_duplicate_ids :
    ((ensureIds (fun _ => "beef") [Node.mk "" "" []] [] "" 0).1.map Node.id
      = [""]) ∧
    ((ensureIds (fun _ => "beef")
        [Node.mk "a-beef" "t" [], Node.mk "a" "t" [], Node.mk "a" "t" []]
        [] "" 0).1.map Node.id = ["a-beef", "a", "a-beef"]) := by
  constructor
  · simp only [ensureIds]
    decide
  · simp only [ensureIds]
    decide

/-- Claim C6, counterexample.  An empty raw caption with fallback title
`"X"` sanitizes to `"Visualization for X"`: not the claimed
`"Visualization for X."`, and ending in neither a period nor an ellipsis
marker. -/
theorem sanitize_empty_counterexample :
    sanitize "" "X" = "Visualization for X" ∧
    sanitize "" "X" ≠ "Visualization for X." ∧
    (sanitizeChars [] ("X").data).getLast? ≠ some '.' := by
  refine ⟨by decide, by decide, by decide⟩

/-- Claim C6, amended.  For a non-empty raw caption the sanitized caption
ends with a period (hence with `.` or the `...` marker), has at most 25
whitespace-separated words, and is non-empty; for an empty raw caption the
result is `"Visualization for " ++ fallbackTitle` with no period appended;
a 40-word raw caption with no period sanitizes to its first 25 words
followed by the ellipsis marker. -/
theorem sanitize_shape (raw ftitle : List Char) :
    (raw ≠ [] →
      (sanitizeChars raw ftitle).getLast? = some '.' ∧
      (pyWords (sanitizeChars raw ftitle)).length ≤ 25 ∧
      sanitizeChars raw ftitle ≠ []) ∧
    (raw = [] → sanitizeChars raw ftitle = ("Visualization for ").data ++ ftitle) ∧
    sanitize
      "w1 w2 w3 w4 w5 w6 w7 w8 w9 w10 w11 w12 w13 w14 w15 w16 w17 w18 w19 w20 w21 w22 w23 w24 w25 w26 w27 w28 w29 w30 w31 w32 w33 w34 w35 w36 w37 w38 w39 w40"
      "T"
      = "w1 w2 w3 w4 w5 w6 w7 w8 w9 w10 w11 w12 w13 w14 w15 w16 w17 w18 w19 w20 w21 w22 w23 w24 w25..." := by
  refine ⟨?_, ?_, by decide⟩
  · intro hraw
    rw [sanitizeChars_nonempty raw ftitle hraw]
    exact ⟨(sanitizeCore_spec raw).1, (sanitizeCore_spec raw).2, sanitizeCore_ne_nil raw⟩
  · intro hraw
    subst hraw
    exact sanitizeChars_empty ftitle

/-- Claim C6, amended, witness at a concrete non-empty caption. -/
theorem sanitize_shape_witness :
    ("Hello world" : String).data ≠ [] ∧
    ((sanitizeChars ("Hello world").data ("T").data).getLast? = some '.' ∧
      (pyWords (sanitizeChars ("Hello world").data ("T").data)).length ≤ 25 ∧
      sanitizeChars ("Hello world").data ("T").data ≠ []) :=
  ⟨by decide, (sanitize_shape ("Hello world").data ("T").data).1 (by decide)⟩

/-- Claim C7.  Whenever the classification call or the parse of its
response fails (`svc = none`), the eligibility endpoint returns the safe
default verdict: not eligible with score 0, never an error. -/
theorem eligibility_safe_default (t : String) :
    (visualizeEligibility none t).ok = false ∧
    (visualizeEligibility none t).score = 0 := by
  unfold visualizeEligibility
  by_cases h : t = "" <;> simp [h]

/-- Claim C2.  If a `visualize` call completes a generation (a 200 outcome
with `cached = false`, covering both genuine success and degraded
fallback), an identical request against the resulting state is answered
from the cache: same image URL and caption, `cached = true`, zero
Generation Service calls, and the state — cache and quota table — exactly
unchanged. -/
theorem visualize_cache_idempotent (env : VizEnv) (st : VizState) (rq : VizRequest)
    (url cap : String) (fb : Bool) (st' : VizState) (n : Nat)
    (h : visualizeStep env st rq = (.ok url cap false fb, st', n)) :
    visualizeStep env st' rq = (.ok url cap true false, st', 0) := by
  rcases visualizeStep_cases env st rq with
    ⟨_, he⟩ | ⟨e, _, _, he⟩ | ⟨_, _, _, he⟩ | ⟨_, _, _, _, he⟩ |
    ⟨p, rawCap, url0, ht, hm, _, _, _, he⟩ | ⟨p, rawCap, ht, hm, _, _, _, he⟩
  · rw [he] at h; simp at h
  · rw [he] at h; simp at h
  · rw [he] at h; simp at h
  · rw [he] at h; simp at h
  · rw [he] at h
    simp only [Prod.mk.injEq, VizOutcome.ok.injEq] at h
    obtain ⟨⟨rfl, rfl, -, rfl⟩, rfl, rfl⟩ := h
    have hkey : findA
        ((cacheKeyOf env rq, (⟨url0, sanitize rawCap rq.nodeTitle⟩ : CacheEntry)) ::
          (materialize st (userKeyOf rq)).cache) (cacheKeyOf env rq)
        = some ⟨url0, sanitize rawCap rq.nodeTitle⟩ := by
      simp [findA]
    simp [visualizeStep, ht, hkey]
  · rw [he] at h
    simp only [Prod.mk.injEq, VizOutcome.ok.injEq] at h
    obtain ⟨⟨rfl, rfl, -, rfl⟩, rfl, rfl⟩ := h
    have hkey : findA
        ((cacheKeyOf env rq,
            (⟨picsumUrl env p, sanitize rawCap rq.nodeTitle⟩ : CacheEntry)) ::
          (materialize st (userKeyOf rq)).cache) (cacheKeyOf env rq)
        = some ⟨picsumUrl env p, sanitize rawCap rq.nodeTitle⟩ := by
      simp [findA]
    simp [visualizeStep, ht, hkey]

/-- Claim C2, witness: a fallback completion followed by an identical
request served from the cache. -/
theorem visualize_cache_idempotent_witness :
    visualizeStep envFB
      (⟨[("t:n:h", ⟨"https://picsum.photos/1024/1024?random=0", "c."⟩)],
        [("ip:d", 0)]⟩ : VizState) rq0 =
    (.ok "https://picsum.photos/1024/1024?random=0" "c." true false,
     ⟨[("t:n:h", ⟨"https://picsum.photos/1024/1024?random=0", "c."⟩)],
      [("ip:d", 0)]⟩, 0) :=
  visualize_cache_idempotent envFB st0 rq0
    "https://picsum.photos/1024/1024?random=0" "c." true _ 2 (by decide)

/-- Claim C3, counterexample.  A generation that completes in the degraded
`Fallback` terminal state does not increment the quota counter: the code's
fallback branch caches the placeholder but never runs
`user_daily_limits[user_key] += 1`. -/
theorem fallback_no_recordusage_counterexample :
    (visualizeStep envFB st0 rq0).1 =
      .ok "https://picsum.photos/1024/1024?random=0" "c." false true ∧
    effCount (visualizeStep envFB st0 rq0).2.1 (userKeyOf rq0) =
      effCount st0 (userKeyOf rq0) := by
  refine ⟨by decide, by decide⟩

/-- Claim C3, amended.  The per-`(clientId, day)` counter is incremented
exactly once per generation that completes in genuine success; a degraded
fallback completion leaves every counter unchanged; no counter is ever
decremented. -/
theorem recordUsage_effect (env : VizEnv) (st : VizState) (rq : VizRequest)
    (o : VizOutcome) (st' : VizState) (n : Nat)
    (h : visualizeStep env st rq = (o, st', n)) (k : String) :
    effCount st' k =
      effCount st k +
        (if isGenuineSuccess o = true ∧ k = userKeyOf rq then 1 else 0) ∧
    effCount st k ≤ effCount st' k := by
  have hmain : effCount st' k =
      effCount st k +
        (if isGenuineSuccess o = true ∧ k = userKeyOf rq then 1 else 0) := by
    rcases visualizeStep_cases env st rq with
      ⟨_, he⟩ | ⟨e, _, _, he⟩ | ⟨_, _, _, he⟩ | ⟨_, _, _, _, he⟩ |
      ⟨p, rawCap, url0, ht, hm, _, _, _, he⟩ | ⟨p, rawCap, ht, hm, _, _, _, he⟩ <;>
        (rw [he] at h; simp only [Prod.mk.injEq] at h; obtain ⟨rfl, rfl, rfl⟩ := h)
    · simp [isGenuineSuccess]
    · simp [isGenuineSuccess]
    · simp [isGenuineSuccess, effCount_materialize]
    · simp [isGenuineSuccess, effCount_materialize]
    · by_cases hk : k = userKeyOf rq
      · subst hk
        simp [isGenuineSuccess, effCount_mk, findA]
      · simp only [effCount_mk, findA]
        rw [if_neg (fun hx => hk hx.symm)]
        simp [findA_materialize_limits, isGenuineSuccess, hk]
    · simp [isGenuineSuccess, effCount_mk, findA_materialize_limits]
  exact ⟨hmain, by rw [hmain]; exact Nat.le_add_right _ _⟩

/-- Claim C3, amended, witness: a genuine success increments the caller's
counter by one. -/
theorem recordUsage_effect_witness :
    effCount (visualizeStep envOK st0 rq0).2.1 (userKeyOf rq0) =
      effCount st0 (userKeyOf rq0) +
        (if isGenuineSuccess (visualizeStep envOK st0 rq0).1 = true ∧
            userKeyOf rq0 = userKeyOf rq0 then 1 else 0) ∧
    effCount st0 (userKeyOf rq0) ≤
      effCount (visualizeStep envOK st0 rq0).2.1 (userKeyOf rq0) :=
  recordUsage_effect envOK st0 rq0 _ _ _ rfl (userKeyOf rq0)

/-- Claim C4, counterexample.  A Generation Service failure in the
planning stage is NOT converted to the degraded fallback path: the outer
`except` returns a raw 500 error, the outcome completes nothing, and the
cache is left unpopulated. -/
theorem planning_failure_counterexample :
    (visualizeStep envPE st0 rq0).1 = .serverError ∧
    isCompletedOk (visualizeStep envPE st0 rq0).1 = false ∧
    ((visualizeStep envPE st0 rq0).2.1).cache = st0.cache := by
  refine ⟨by decide, by decide, by decide⟩

/-- Claim C4, amended.  For a request that passes the cache and quota
checks, a failure of the image-generation stage is never surfaced raw: it
is converted to the degraded fallback (placeholder URL derived from the
prompt hash, response marked degraded) and the degraded result is cached;
a failure of the planning stage, by contrast, is surfaced as the 500
server-error outcome with nothing cached. -/
theorem upstream_failure_fallback (env : VizEnv) (st : VizState) (rq : VizRequest)
    (ht : rq.nodeTitle ≠ "")
    (hm : findA st.cache (cacheKeyOf env rq) = none)
    (hq : effCount st (userKeyOf rq) < 20) :
    (∀ p rawCap,
      env.planning rq.topic rq.nodeTitle rq.nodeDesc rq.content = some (p, rawCap) →
      env.imageGen p = none →
      (visualizeStep env st rq).1 =
        .ok (picsumUrl env p) (sanitize rawCap rq.nodeTitle) false true ∧
      findA ((visualizeStep env st rq).2.1).cache (cacheKeyOf env rq) =
        some ⟨picsumUrl env p, sanitize rawCap rq.nodeTitle⟩) ∧
    (env.planning rq.topic rq.nodeTitle rq.nodeDesc rq.content = none →
      (visualizeStep env st rq).1 = .serverError ∧
      ((visualizeStep env st rq).2.1).cache = st.cache) := by
  rcases visualizeStep_cases env st rq with
    ⟨h1, _⟩ | ⟨e, _, hce, _⟩ | ⟨_, _, hq2, _⟩ | ⟨_, _, _, hp, he⟩ |
    ⟨p, rawCap, url0, _, _, _, hp, hi, he⟩ | ⟨p, rawCap, _, _, _, hp, hi, he⟩
  · exact absurd h1 ht
  · rw [hm] at hce; cases hce
  · exact absurd hq2 (Nat.not_le.mpr hq)
  · refine ⟨fun p' rawCap' hp2 _ => ?_, fun _ => ?_⟩
    · rw [hp] at hp2; cases hp2
    · rw [he]
      exact ⟨rfl, materialize_cache st (userKeyOf rq)⟩
  · refine ⟨fun p' rawCap' hp2 hi2 => ?_, fun hp2 => ?_⟩
    · rw [hp] at hp2
      obtain ⟨rfl, rfl⟩ : p = p' ∧ rawCap = rawCap' := by
        simpa using hp2
      rw [hi] at hi2
      cases hi2
    · rw [hp] at hp2; cases hp2
  · refine ⟨fun p' rawCap' hp2 hi2 => ?_, fun hp2 => ?_⟩
    · rw [hp] at hp2
      obtain ⟨rfl, rfl⟩ : p = p' ∧ rawCap = rawCap' := by
        simpa using hp2
      rw [he]
      exact ⟨rfl, by simp [findA]⟩
    · rw [hp] at hp2; cases hp2

/-- Claim C4, amended, witness: concrete image-generation failure routed
to the cached degraded fallback. -/
theorem upstream_failure_fallback_witness :
    (visualizeStep envFB st0 rq0).1 =
      .ok (picsumUrl envFB "p") (sanitize "c" rq0.nodeTitle) false true ∧
    findA ((visualizeStep envFB st0 rq0).2.1).cache (cacheKeyOf envFB rq0) =
      some ⟨picsumUrl envFB "p", sanitize "c" rq0.nodeTitle⟩ :=
  (upstream_failure_fallback envFB st0 rq0 (by decide) (by decide) (by decide)).1
    "p" "c" rfl rfl

/-- Claim C5.  With the cache missed, admission is decided exactly by the
`(clientId, day)` counter: the request is Rejected precisely when the
counter has reached the fixed ceiling 20, and a rejection makes no
Generation Service call and leaves the cache and the counter unchanged.
A fresh `(clientId, day)` key has counter 0 < 20, so a new day is admitted
afresh. -/
theorem admit_threshold (env : VizEnv) (st : VizState) (rq : VizRequest)
    (ht : rq.nodeTitle ≠ "")
    (hm : findA st.cache (cacheKeyOf env rq) = none) :
    ((visualizeStep env st rq).1 = .rejected ↔ 20 ≤ effCount st (userKeyOf rq)) ∧
    (20 ≤ effCount st (userKeyOf rq) →
      (visualizeStep env st rq).2.2 = 0 ∧
      ((visualizeStep env st rq).2.1).cache = st.cache ∧
      effCount ((visualizeStep env st rq).2.1) (userKeyOf rq) =
        effCount st (userKeyOf rq)) := by
  rcases visualizeStep_cases env st rq with
    ⟨h1, _⟩ | ⟨e, _, hce, _⟩ | ⟨_, _, hq, he⟩ | ⟨_, _, hq, _, he⟩ |
    ⟨p, rawCap, url0, _, _, hq, _, _, he⟩ | ⟨p, rawCap, _, _, hq, _, _, he⟩
  · exact absurd h1 ht
  · rw [hm] at hce; cases hce
  · refine ⟨⟨fun _ => hq, fun _ => by rw [he]⟩, fun _ => ?_⟩
    rw [he]
    exact ⟨rfl, materialize_cache st (userKeyOf rq),
      effCount_materialize st (userKeyOf rq) (userKeyOf rq)⟩
  · refine ⟨⟨fun hr => ?_, fun hr => absurd hr (Nat.not_le.mpr hq)⟩,
      fun hr => absurd hr (Nat.not_le.mpr hq)⟩
    rw [he] at hr
    cases hr
  · refine ⟨⟨fun hr => ?_, fun hr => absurd hr (Nat.not_le.mpr hq)⟩,
      fun hr => absurd hr (Nat.not_le.mpr hq)⟩
    rw [he] at hr
    cases hr
  · refine ⟨⟨fun hr => ?_, fun hr => absurd hr (Nat.not_le.mpr hq)⟩,
      fun hr => absurd hr (Nat.not_le.mpr hq)⟩
    rw [he] at hr
    cases hr

/-- Claim C5, witness: the 21st request of a client whose counter already
reached 20 is rejected without any service call or state change. -/
theorem admit_threshold_witness :
    ((visualizeStep envOK (⟨[], [("ip:d", 20)]⟩ : VizState) rq0).1 = .rejected ↔
      20 ≤ effCount (⟨[], [("ip:d", 20)]⟩ : VizState) (userKeyOf rq0)) ∧
    (20 ≤ effCount (⟨[], [("ip:d", 20)]⟩ : VizState) (userKeyOf rq0) →
      (visualizeStep envOK (⟨[], [("ip:d", 20)]⟩ : VizState) rq0).2.2 = 0 ∧
      ((visualizeStep envOK (⟨[], [("ip:d", 20)]⟩ : VizState) rq0).2.1).cache =
        (⟨[], [("ip:d", 20)]⟩ : VizState).cache ∧
      effCount ((visualizeStep envOK (⟨[], [("ip:d", 20)]⟩ : VizState) rq0).2.1)
          (userKeyOf rq0) =
        effCount (⟨[], [("ip:d", 20)]⟩ : VizState) (userKeyOf rq0)) :=
  admit_threshold envOK ⟨[], [("ip:d", 20)]⟩ rq0 (by decide) (by decide)

/-- Claim C8, counterexample.  An error outcome is not reserved to caller
input errors: with the node title present, a planning-stage service
failure produces the 500 error outcome after one Generation Service call
has already been made. -/
theorem error_despite_valid_input_counterexample :
    rq0.nodeTitle ≠ "" ∧
    (visualizeStep envPE st0 rq0).1 = .serverError ∧
    (visualizeStep envPE st0 rq0).2.2 = 1 := by
  refine ⟨by decide, by decide, by decide⟩

/-- Claim C8, amended.  The 400 input-error outcome is reached exactly
when the node title is missing; it is detected before any pipeline stage,
with zero Generation Service calls and the state (cache and quota)
untouched.  Separately, a planning-stage service failure yields the 500
server-error outcome. -/
theorem input_error_shape (env : VizEnv) (st : VizState) (rq : VizRequest) :
    (rq.nodeTitle = "" → visualizeStep env st rq = (.inputError, st, 0)) ∧
    ((visualizeStep env st rq).1 = .inputError → rq.nodeTitle = "") ∧
    ((visualizeStep env st rq).1 = .serverError →
      rq.nodeTitle ≠ "" ∧
      env.planning rq.topic rq.nodeTitle rq.nodeDesc rq.content = none) := by
  rcases visualizeStep_cases env st rq with
    ⟨h1, he⟩ | ⟨e, ht, _, he⟩ | ⟨ht, _, _, he⟩ | ⟨ht, _, _, hp, he⟩ |
    ⟨p, rawCap, url0, ht, _, _, _, _, he⟩ | ⟨p, rawCap, ht, _, _, _, _, he⟩
  · refine ⟨fun _ => he, fun _ => h1, fun hs => ?_⟩
    rw [he] at hs
    cases hs
  · refine ⟨fun h0 => absurd h0 ht, fun hi => ?_, fun hs => ?_⟩
    · rw [he] at hi; cases hi
    · rw [he] at hs; cases hs
  · refine ⟨fun h0 => absurd h0 ht, fun hi => ?_, fun hs => ?_⟩
    · rw [he] at hi; cases hi
    · rw [he] at hs; cases hs
  · refine ⟨fun h0 => absurd h0 ht, fun hi => ?_, fun _ => ⟨ht, hp⟩⟩
    rw [he] at hi; cases hi
  · refine ⟨fun h0 => absurd h0 ht, fun hi => ?_, fun hs => ?_⟩
    · rw [he] at hi; cases hi
    · rw [he] at hs; cases hs
  · refine ⟨fun h0 => absurd h0 ht, fun hi => ?_, fun hs => ?_⟩
    · rw [he] at hi; cases hi
    · rw [he] at hs; cases hs

/-- Claim C8, amended, witness: a missing title fails fast with no side
effects and no service call. -/
theorem input_error_shape_witness :
    visualizeStep envOK st0 rqE = (.inputError, st0, 0) :=
  (input_error_shape envOK st0 rqE).1 rfl

/-- Claim C9.  A cache binding, once created, is never mutated or
overwritten by any later sequence of requests; one step changes the cache
only when it ends in a completed (Succeeded or Fallback) terminal outcome,
and changes a quota counter only when it ends in the genuine-success
terminal outcome — never mid-stage. -/
theorem cache_quota_discipline (env : VizEnv) (st : VizState) :
    (∀ rqs k v, findA st.cache k = some v →
      findA (runTrace env st rqs).cache k = some v) ∧
    (∀ rq, ((visualizeStep env st rq).2.1).cache = st.cache ∨
      isCompletedOk (visualizeStep env st rq).1 = true) ∧
    (∀ rq k, effCount ((visualizeStep env st rq).2.1) k = effCount st k ∨
      isGenuineSuccess (visualizeStep env st rq).1 = true) := by
  refine ⟨fun rqs k v h => runTrace_cache_mono env rqs st k v h,
    fun rq => ?_, fun rq k => ?_⟩
  · rcases visualizeStep_cases env st rq with
      ⟨_, he⟩ | ⟨e, _, _, he⟩ | ⟨_, _, _, he⟩ | ⟨_, _, _, _, he⟩ |
      ⟨p, rawCap, url0, _, _, _, _, _, he⟩ | ⟨p, rawCap, _, _, _, _, _, he⟩
    · left; rw [he]
    · left; rw [he]
    · left; rw [he]; exact materialize_cache st (userKeyOf rq)
    · left; rw [he]; exact materialize_cache st (userKeyOf rq)
    · right; rw [he]; rfl
    · right; rw [he]; rfl
  · rcases visualizeStep_cases env st rq with
      ⟨_, he⟩ | ⟨e, _, _, he⟩ | ⟨_, _, _, he⟩ | ⟨_, _, _, _, he⟩ |
      ⟨p, rawCap, url0, _, _, _, _, _, he⟩ | ⟨p, rawCap, _, _, _, _, _, he⟩
    · left; rw [he]
    · left; rw [he]
    · left; rw [he]; exact effCount_materialize st (userKeyOf rq) k
    · left; rw [he]; exact effCount_materialize st (userKeyOf rq) k
    · right; rw [he]; rfl
    · left; rw [he]
      exact findA_materialize_limits st (userKeyOf rq) k

/-- Claim C9, witness: an existing cache binding survives a later request
for the same fingerprint. -/
theorem cache_quota_discipline_witness :
    findA (runTrace envOK (⟨[("t:n:h", ⟨"u", "c."⟩)], []⟩ : VizState) [rq0]).cache
        "t:n:h" = some ⟨"u", "c."⟩ :=
  (cache_quota_discipline envOK ⟨[("t:n:h", ⟨"u", "c."⟩)], []⟩).1
    [rq0] "t:n:h" ⟨"u", "c."⟩ (by decide)

/-- Claim C10.  When the parsed deep-dive response has a non-empty
(stripped) `shortName` and non-empty `children`, the endpoint returns the
first at most four children, id-assigned with the empty prefix; the first
returned child's title lowercases to `"overview"`, and when the id-assigned
first child's title was not `"overview"` case-insensitively it has been
replaced by the exact title `"Overview"`. -/
theorem deepdive_children_spec (rand : Nat → String) (sn : String) (ch : List Node)
    (hsn : String.mk (stripBy isPySpace sn.data) ≠ "") (hch : ch ≠ []) :
    apiDeepdive rand sn ch =
      some (String.mk (stripBy isPySpace sn.data), deepdivePost rand ch) ∧
    (deepdivePost rand ch).length = min 4 ch.length ∧
    (deepdivePost rand ch).length ≤ 4 ∧
    (deepdivePost rand ch).map Node.id =
      ((ensureIds rand (ch.take 4) [] "" 0).1).map Node.id ∧
    (∀ n, (deepdivePost rand ch).head? = some n → pyLower n.title = "overview") ∧
    (∀ m, ((ensureIds rand (ch.take 4) [] "" 0).1).head? = some m →
      pyLower m.title ≠ "overview" →
      ((deepdivePost rand ch).head?).map Node.title = some "Overview") := by
  have hpos : 0 < ch.length := List.length_pos.mpr hch
  have hlen : ((ensureIds rand (ch.take 4) [] "" 0).1).length = min 4 ch.length := by
    rw [ensureIds_length, List.length_take]
  have hne : (ensureIds rand (ch.take 4) [] "" 0).1 ≠ [] := by
    intro h0
    rw [h0] at hlen
    simp only [List.length_nil] at hlen
    omega
  obtain ⟨m, rest, hms⟩ : ∃ m rest, (ensureIds rand (ch.take 4) [] "" 0).1 = m :: rest := by
    cases h : (ensureIds rand (ch.take 4) [] "" 0).1 with
    | nil => exact absurd h hne
    | cons a l => exact ⟨a, l, rfl⟩
  have hdp : deepdivePost rand ch =
      if pyLower m.title ≠ "overview" then Node.mk m.id "Overview" m.children :: rest
      else m :: rest := by
    unfold deepdivePost
    rw [hms]
  have hlen2 : rest.length + 1 = min 4 ch.length := by
    rw [hms] at hlen
    simpa using hlen
  have hlenOut : (deepdivePost rand ch).length = min 4 ch.length := by
    rw [hdp]
    split <;> simpa using hlen2
  refine ⟨?_, hlenOut, ?_, ?_, ?_, ?_⟩
  · simp only [apiDeepdive]
    rw [if_neg]
    rintro (h | h)
    · exact hsn h
    · exact hch (List.isEmpty_iff.mp h)
  · rw [hlenOut]
    exact Nat.min_le_left _ _
  · rw [hdp, hms]
    split <;> simp [Node.id]
  · intro n hn
    rw [hdp] at hn
    split at hn
    · simp only [List.head?_cons, Option.some.injEq] at hn
      subst hn
      show pyLower "Overview" = "overview"
      decide
    · rename_i hcond
      simp only [List.head?_cons, Option.some.injEq] at hn
      subst hn
      exact not_not.mp hcond
  · intro m' hm' hlow
    rw [hms] at hm'
    simp only [List.head?_cons, Option.some.injEq] at hm'
    subst hm'
    rw [hdp, if_pos hlow]
    simp [Node.title]

/-- Claim C10, witness at a concrete parsed response. -/
theorem deepdive_children_spec_witness :
    apiDeepdive (fun _ => "ab12") "S" [Node.mk "" "Intro" []] =
      some (String.mk (stripBy isPySpace ("S").data),
        deepdivePost (fun _ => "ab12") [Node.mk "" "Intro" []]) ∧
    (deepdivePost (fun _ => "ab12") [Node.mk "" "Intro" []]).length =
      min 4 ([Node.mk "" "Intro" []] : List Node).length :=
  ⟨(deepdive_children_spec (fun _ => "ab12") "S" [Node.mk "" "Intro" []]
      (by decide) (List.cons_ne_nil _ _)).1,
   (deepdive_children_spec (fun _ => "ab12") "S" [Node.mk "" "Intro" []]
      (by decide) (List.cons_ne_nil _ _)).2.1⟩

end Infinitum
